import Mathlib

/-!
Verification of `src/base/filesystemwatcher.cpp` (qBittorrent FileSystemWatcher).

The state machine of the watcher is shallowly embedded: the mutable members of
the `FileSystemWatcher` object become a Lean structure, each C++ member function
becomes a pure Lean function on that structure, and the ambient filesystem
(directory listings, `QFile::exists`, `statfs`, torrent validation) is an
explicit environment parameter.  Emitted `torrentsAdded` signals and performed
`QFile::rename` calls are returned as explicit output lists.
-/

namespace FSW

/-- `CIFS_MAGIC_NUMBER` from the anonymous namespace of the source. -/
def CIFS_MAGIC_NUMBER : Nat := 0xFF534D42

/-- `NFS_SUPER_MAGIC` from the anonymous namespace of the source. -/
def NFS_SUPER_MAGIC : Nat := 0x6969

/-- `SMB_SUPER_MAGIC` from the anonymous namespace of the source. -/
def SMB_SUPER_MAGIC : Nat := 0x517B

/-- `WATCH_INTERVAL` (milliseconds) from the anonymous namespace of the source. -/
def WATCH_INTERVAL : Nat := 10000

/-- `MAX_PARTIAL_RETRIES` from the anonymous namespace of the source. -/
def MAX_PARTIAL_RETRIES : Nat := 5

/-- The filesystem / external-capability environment visible to the watcher:
`QDir::exists`, `statfs` (giving the `f_type` magic on success, `none` on failure),
`QDir::entryList` raw contents, `QFile::exists` and
`BitTorrent::TorrentInfo::loadFromFile(...).isValid()`. -/
structure FS where
  dirExists : String → Bool
  statfs : String → Option Nat
  dirFiles : String → List String
  fileExists : String → Bool
  torrentValid : String → Bool

/-- Modelled from the spec: the member declarations of `FileSystemWatcher` live
in `filesystemwatcher.h`, which is not part of the sources here.  Following the
spec's §4.5 ("created on the first such registration, destroyed when the last is
removed" and "destroyed by the tracker itself once empty"), the two timer
members are modelled as auto-nulling handles (`QPointer<QTimer>`-style): a
`Bool` that is `true` exactly while the timer object exists (and is armed).
`qfswDirs` models the paths subscribed with the base `QFileSystemWatcher`;
`watchedFolders` models `m_watchedFolders` (a `QList`, so duplicates are
representable); `partialTorrents` models the `m_partialTorrents` hash as an
association list path ↦ retry count. -/
structure WState where
  qfswDirs : List String
  watchedFolders : List String
  watchTimer : Bool
  partialTorrents : List (String × Nat)
  partialTimer : Bool
deriving DecidableEq, Repr

/-- `QString::endsWith`, modelled on the character data of the strings. -/
def strEndsWith (s suf : String) : Bool :=
  List.isSuffixOf suf.data s.data

/-- The fixed `m_filters` patterns `*.torrent`, `*.magnet` applied by
`QDir::entryList`: a name matches iff it ends with one of the two suffixes. -/
def matchesFilters (name : String) : Bool :=
  strEndsWith name ".torrent" || strEndsWith name ".magnet"

/-- `dir.entryList(m_filters, QDir::Files, QDir::Unsorted)`: the directory's
file names restricted to the filter patterns. -/
def entryList (names : List String) : List String :=
  names.filter matchesFilters

/-- `QDir::absoluteFilePath`: the directory path joined with the entry name. -/
def absoluteFilePath (dir name : String) : String :=
  dir ++ "/" ++ name

/-- The key set of the partial-torrents association list. -/
def keys (l : List (String × Nat)) : List String :=
  l.map Prod.fst

/-- `FileSystemWatcher::isNetworkFileSystem` (the non-macOS branch): if the
`statfs` query succeeds, compare the reported `f_type` against the three
magic numbers; on any query failure report `false` (local). -/
def isNetworkFileSystem (fs : FS) (path : String) : Bool :=
  match fs.statfs path with
  | some t =>
      (t == CIFS_MAGIC_NUMBER) || (t == NFS_SUPER_MAGIC) || (t == SMB_SUPER_MAGIC)
  | none => false

/-- `FileSystemWatcher::startPartialTorrentTimer`: create and arm the
single-shot reconciliation timer if it does not exist yet. -/
def startPartialTorrentTimer (s : WState) : WState :=
  if s.partialTimer then s else { s with partialTimer := true }

/-- The `foreach` body of `FileSystemWatcher::addTorrentsFromDir`: walk the
filtered entries, appending magnet files and valid torrent files to the
report accumulator and registering unseen invalid torrent files with retry
count `0`. -/
def addTorrentsLoop (fs : FS) (dir : String) :
    List String → List (String × Nat) × List String → List (String × Nat) × List String
  | [], acc => acc
  | name :: rest, (parts, torrents) =>
      let p := absoluteFilePath dir name
      if strEndsWith p ".magnet" then
        addTorrentsLoop fs dir rest (parts, torrents ++ [p])
      else if fs.torrentValid p then
        addTorrentsLoop fs dir rest (parts, torrents ++ [p])
      else if parts.any (fun e => e.1 == p) then
        addTorrentsLoop fs dir rest (parts, torrents)
      else
        addTorrentsLoop fs dir rest (parts ++ [(p, 0)], torrents)

/-- `FileSystemWatcher::addTorrentsFromDir`: scan one directory, accumulate
ready files into `torrents`, register partial files, and ensure the
reconciliation timer runs if any tracked file remains afterwards. -/
def addTorrentsFromDir (fs : FS) (dir : String) (s : WState) (torrents : List String) :
    WState × List String :=
  let res := addTorrentsLoop fs dir (entryList (fs.dirFiles dir)) (s.partialTorrents, torrents)
  let s1 := { s with partialTorrents := res.1 }
  let s2 := if res.1.isEmpty then s1 else startPartialTorrentTimer s1
  (s2, res.2)

/-- `FileSystemWatcher::scanLocalFolder`: scan one directory and emit a single
`torrentsAdded` report when the batch is non-empty.  The second component is
the list of emitted reports. -/
def scanLocalFolder (fs : FS) (path : String) (s : WState) :
    WState × List (List String) :=
  let res := addTorrentsFromDir fs path s []
  (res.1, if res.2.isEmpty then [] else [res.2])

/-- `FileSystemWatcher::scanNetworkFolders`: scan every folder of
`m_watchedFolders`, concatenating into one batch, and emit a single report
when the batch is non-empty. -/
def scanNetworkFolders (fs : FS) (s : WState) : WState × List (List String) :=
  let res := s.watchedFolders.foldl
    (fun acc dir => addTorrentsFromDir fs dir acc.1 acc.2) (s, [])
  (res.1, if res.2.isEmpty then [] else [res.2])

/-- `FileSystemWatcher::addPath`: return unchanged if the directory does not
exist; on a network filesystem append to `m_watchedFolders` and ensure the
poll timer exists; otherwise subscribe with the base `QFileSystemWatcher`
(which ignores already-watched paths) and immediately scan the folder. -/
def addPath (fs : FS) (path : String) (s : WState) : WState × List (List String) :=
  if fs.dirExists path then
    if isNetworkFileSystem fs path then
      let s1 := { s with watchedFolders := s.watchedFolders ++ [path] }
      let s2 := if s1.watchTimer then s1 else { s1 with watchTimer := true }
      (s2, [])
    else
      let s1 :=
        if s.qfswDirs.contains path then s
        else { s with qfswDirs := s.qfswDirs ++ [path] }
      scanLocalFolder fs path s1
  else (s, [])

/-- The scan of the `removePath` loop: drop the first folder equal to `path`,
or report `none` when no folder matches. -/
def removeFirst (path : String) : List String → Option (List String)
  | [] => none
  | d :: rest =>
      if d == path then some rest
      else
        match removeFirst path rest with
        | some rest2 => some (d :: rest2)
        | none => none

/-- `FileSystemWatcher::removePath`: if the path is among `m_watchedFolders`,
remove that occurrence and destroy the poll timer when the list became empty;
otherwise fall through to `QFileSystemWatcher::removePath`. -/
def removePath (path : String) (s : WState) : WState :=
  match removeFirst path s.watchedFolders with
  | some folders =>
      let s1 := { s with watchedFolders := folders }
      if folders.isEmpty then { s1 with watchTimer := false } else s1
  | none => { s with qfswDirs := s.qfswDirs.erase path }

/-- One entry's treatment inside the `Dict::removeIf` call of
`FileSystemWatcher::processPartialTorrents`.  The accumulator is
(kept entries, `noLongerPartial`, renamed file names): a vanished file is
dropped silently, a now-valid file is dropped into the report, a file at the
retry ceiling is renamed with the `.invalid` suffix and dropped, and any other
file has its retry count incremented and is kept. -/
def partialScanStep (fs : FS) (acc : List (String × Nat) × List String × List String)
    (e : String × Nat) : List (String × Nat) × List String × List String :=
  if fs.fileExists e.1 = false then acc
  else if fs.torrentValid e.1 then (acc.1, acc.2.1 ++ [e.1], acc.2.2)
  else if MAX_PARTIAL_RETRIES ≤ e.2 then (acc.1, acc.2.1, acc.2.2 ++ [e.1 ++ ".invalid"])
  else (acc.1 ++ [(e.1, e.2 + 1)], acc.2.1, acc.2.2)

/-- `FileSystemWatcher::processPartialTorrents`: run the removal pass over all
tracked entries, stop and discard the reconciliation timer when the tracker
drained, restart it otherwise, and emit one report when files became ready.
Returns (new state, emitted reports, renamed-to file names). -/
def processPartialTorrents (fs : FS) (s : WState) :
    WState × List (List String) × List String :=
  let res := s.partialTorrents.foldl (partialScanStep fs) ([], [], [])
  let s1 := { s with
    partialTorrents := res.1
    partialTimer := if res.1.isEmpty then false else true }
  (s1, (if res.2.1.isEmpty then [] else [res.2.1]), res.2.2)

/-- The events that drive the watcher: public calls, the `directoryChanged`
notification for a subscribed local directory, and the two timer firings.
A timer only fires while it exists and is armed. -/
inductive Op where
  | add (path : String)
  | remove (path : String)
  | localEvent (path : String)
  | netTick
  | partialTick
deriving DecidableEq, Repr

/-- The state transition of one event; emitted reports and renames are
discarded here (the separate operation functions expose them). -/
def stepOp (fs : FS) (op : Op) (s : WState) : WState :=
  match op with
  | .add p => (addPath fs p s).1
  | .remove p => removePath p s
  | .localEvent p => if s.qfswDirs.contains p then (scanLocalFolder fs p s).1 else s
  | .netTick => if s.watchTimer then (scanNetworkFolders fs s).1 else s
  | .partialTick => if s.partialTimer then (processPartialTorrents fs s).1 else s

/-- The freshly constructed watcher: nothing watched, no timers. -/
def initialState : WState :=
  { qfswDirs := []
    watchedFolders := []
    watchTimer := false
    partialTorrents := []
    partialTimer := false }

/-- Run a trace of events (each with the filesystem contents at that moment)
from the freshly constructed watcher. -/
def run (tr : List (FS × Op)) : WState :=
  tr.foldl (fun s e => stepOp e.1 e.2 s) initialState

/-- A watcher state that tracks exactly one partial file at the given retry
count, with the reconciliation timer armed. -/
def partialState (p : String) (n : Nat) : WState :=
  { qfswDirs := []
    watchedFolders := []
    watchTimer := false
    partialTorrents := [(p, n)]
    partialTimer := true }

/-- Iterate the reconciliation tick: each step fires only while the timer is
armed.  Returns (final state, all emitted reports, all renamed-to names). -/
def runPartialTicks (fs : FS) : Nat → WState → WState × List (List String) × List String
  | 0, s => (s, [], [])
  | k + 1, s =>
      if s.partialTimer then
        let r1 := processPartialTorrents fs s
        let r2 := runPartialTicks fs k r1.1
        (r2.1, r1.2.1 ++ r2.2.1, r1.2.2 ++ r2.2.2)
      else (s, [], [])

/-- Modelled from the spec: the per-entry transition of §4.4 as written
(case 1 drop silently, case 2 promote to the ready batch, case 3 rename and
drop, case 4 increment and keep) — the entry kept by one tick, if any. -/
def specKeep (fs : FS) (e : String × Nat) : Option (String × Nat) :=
  if fs.fileExists e.1 = false then none
  else if fs.torrentValid e.1 then none
  else if MAX_PARTIAL_RETRIES ≤ e.2 then none
  else some (e.1, e.2 + 1)

/-- Modelled from the spec: the path reported ready by one tick, if any
(§4.4 case 2). -/
def specReady (fs : FS) (e : String × Nat) : Option String :=
  if fs.fileExists e.1 = false then none
  else if fs.torrentValid e.1 then some e.1
  else none

/-- Modelled from the spec: the invalidation rename performed by one tick, if
any (§4.4 case 3). -/
def specRename (fs : FS) (e : String × Nat) : Option String :=
  if fs.fileExists e.1 = false then none
  else if fs.torrentValid e.1 then none
  else if MAX_PARTIAL_RETRIES ≤ e.2 then some (e.1 ++ ".invalid")
  else none

/-- A network-mounted watch directory `/net` containing one magnet file:
`statfs` reports the NFS magic. -/
def fsNet : FS :=
  { dirExists := fun _ => true
    statfs := fun _ => some NFS_SUPER_MAGIC
    dirFiles := fun _ => ["m.magnet"]
    fileExists := fun _ => true
    torrentValid := fun _ => false }

/-- A local watch directory `/d` containing one torrent file that never
validates (`b.torrent` is permanently malformed). -/
def fsBad : FS :=
  { dirExists := fun _ => true
    statfs := fun _ => none
    dirFiles := fun _ => ["b.torrent"]
    fileExists := fun _ => true
    torrentValid := fun _ => false }

/-- A local watch directory `/d` containing one torrent file that fails
validation (first observation of `a.torrent`, mid-write). -/
def fsSeen : FS :=
  { dirExists := fun _ => true
    statfs := fun _ => none
    dirFiles := fun _ => ["a.torrent"]
    fileExists := fun _ => true
    torrentValid := fun _ => false }

/-- The same directory a moment later: `a.torrent` now validates. -/
def fsDone : FS :=
  { dirExists := fun _ => true
    statfs := fun _ => none
    dirFiles := fun _ => ["a.torrent"]
    fileExists := fun _ => true
    torrentValid := fun _ => true }

/-- The invariant claimed for the reconciliation timer: armed iff the
partial-file tracker is non-empty. -/
def ReconTimerInv (s : WState) : Prop :=
  s.partialTimer = true ↔ s.partialTorrents ≠ []

/-- The invariant claimed for the network poll timer: running iff the
network-watched folder list is non-empty. -/
def PollTimerInv (s : WState) : Prop :=
  s.watchTimer = true ↔ s.watchedFolders ≠ []

theorem string_data_inj {a b : String} (h : a.data = b.data) : a = b := by
  cases a
  cases b
  simp only at h
  rw [h]

theorem absoluteFilePath_inj {dir n1 n2 : String}
    (h : absoluteFilePath dir n1 = absoluteFilePath dir n2) : n1 = n2 := by
  have h2 := congrArg String.data h
  simp only [absoluteFilePath, String.data_append] at h2
  exact string_data_inj (List.append_inj_right h2 rfl)

theorem any_key_iff (l : List (String × Nat)) (p : String) :
    (l.any fun e => e.1 == p) = true ↔ p ∈ keys l := by
  simp [keys, List.any_eq_true, List.mem_map]

theorem loop_nil (fs : FS) (dir : String) (acc : List (String × Nat) × List String) :
    addTorrentsLoop fs dir [] acc = acc := by
  simp [addTorrentsLoop]

theorem loop_cons_magnet (fs : FS) (dir name : String) (rest : List String)
    (parts : List (String × Nat)) (torrents : List String)
    (h1 : strEndsWith (absoluteFilePath dir name) ".magnet" = true) :
    addTorrentsLoop fs dir (name :: rest) (parts, torrents)
      = addTorrentsLoop fs dir rest (parts, torrents ++ [absoluteFilePath dir name]) := by
  simp [addTorrentsLoop, h1]

theorem loop_cons_valid (fs : FS) (dir name : String) (rest : List String)
    (parts : List (String × Nat)) (torrents : List String)
    (h1 : strEndsWith (absoluteFilePath dir name) ".magnet" = false)
    (h2 : fs.torrentValid (absoluteFilePath dir name) = true) :
    addTorrentsLoop fs dir (name :: rest) (parts, torrents)
      = addTorrentsLoop fs dir rest (parts, torrents ++ [absoluteFilePath dir name]) := by
  simp [addTorrentsLoop, h1, h2]

theorem loop_cons_seen (fs : FS) (dir name : String) (rest : List String)
    (parts : List (String × Nat)) (torrents : List String)
    (h1 : strEndsWith (absoluteFilePath dir name) ".magnet" = false)
    (h2 : fs.torrentValid (absoluteFilePath dir name) = false)
    (h3 : (parts.any fun e => e.1 == absoluteFilePath dir name) = true) :
    addTorrentsLoop fs dir (name :: rest) (parts, torrents)
      = addTorrentsLoop fs dir rest (parts, torrents) := by
  simp [addTorrentsLoop, h1, h2, h3]

theorem loop_cons_new (fs : FS) (dir name : String) (rest : List String)
    (parts : List (String × Nat)) (torrents : List String)
    (h1 : strEndsWith (absoluteFilePath dir name) ".magnet" = false)
    (h2 : fs.torrentValid (absoluteFilePath dir name) = false)
    (h3 : (parts.any fun e => e.1 == absoluteFilePath dir name) = false) :
    addTorrentsLoop fs dir (name :: rest) (parts, torrents)
      = addTorrentsLoop fs dir rest (parts ++ [(absoluteFilePath dir name, 0)], torrents) := by
  simp [addTorrentsLoop, h1, h2, h3]

theorem addTorrentsLoop_parts (fs : FS) (dir : String) :
    ∀ (names : List String) (parts : List (String × Nat)) (torrents : List String),
      ∃ extra, (addTorrentsLoop fs dir names (parts, torrents)).1 = parts ++ extra
        ∧ ∀ e ∈ extra, e.2 = 0 ∧ ∃ nm, nm ∈ names ∧ e.1 = absoluteFilePath dir nm := by
  intro names
  induction names with
  | nil =>
      intro parts torrents
      exact ⟨[], by simp [loop_nil]⟩
  | cons name rest ih =>
      intro parts torrents
      have push : ∀ (parts2 : List (String × Nat)) (torrents2 : List String),
          (∃ extra, (addTorrentsLoop fs dir rest (parts2, torrents2)).1 = parts2 ++ extra
            ∧ ∀ e ∈ extra, e.2 = 0 ∧ ∃ nm, nm ∈ rest ∧ e.1 = absoluteFilePath dir nm) →
          ∃ extra, (addTorrentsLoop fs dir rest (parts2, torrents2)).1 = parts2 ++ extra
            ∧ ∀ e ∈ extra, e.2 = 0 ∧ ∃ nm, nm ∈ name :: rest ∧ e.1 = absoluteFilePath dir nm := by
        rintro parts2 torrents2 ⟨extra, he, hp⟩
        refine ⟨extra, he, fun e hm => ⟨(hp e hm).1, ?_⟩⟩
        obtain ⟨nm, hnm, heq⟩ := (hp e hm).2
        exact ⟨nm, List.mem_cons_of_mem _ hnm, heq⟩
      by_cases h1 : strEndsWith (absoluteFilePath dir name) ".magnet" = true
      · rw [loop_cons_magnet fs dir name rest parts torrents h1]
        exact push _ _ (ih parts _)
      · rw [Bool.not_eq_true] at h1
        by_cases h2 : fs.torrentValid (absoluteFilePath dir name) = true
        · rw [loop_cons_valid fs dir name rest parts torrents h1 h2]
          exact push _ _ (ih parts _)
        · rw [Bool.not_eq_true] at h2
          by_cases h3 : (parts.any fun e => e.1 == absoluteFilePath dir name) = true
          · rw [loop_cons_seen fs dir name rest parts torrents h1 h2 h3]
            exact push _ _ (ih parts _)
          · rw [Bool.not_eq_true] at h3
            rw [loop_cons_new fs dir name rest parts torrents h1 h2 h3]
            obtain ⟨extra, he, hp⟩ :=
              ih (parts ++ [(absoluteFilePath dir name, 0)]) torrents
            refine ⟨(absoluteFilePath dir name, 0) :: extra, ?_, ?_⟩
            · rw [he, List.append_assoc]
              rfl
            · intro e hm
              rcases List.mem_cons.mp hm with hm | hm
              · subst hm
                exact ⟨rfl, name, List.mem_cons_self _ _, rfl⟩
              · refine ⟨(hp e hm).1, ?_⟩
                obtain ⟨nm, hnm, heq⟩ := (hp e hm).2
                exact ⟨nm, List.mem_cons_of_mem _ hnm, heq⟩

theorem addTorrentsLoop_torrents (fs : FS) (dir : String) :
    ∀ (names : List String) (parts : List (String × Nat)) (torrents : List String)
      (q : String),
      q ∈ (addTorrentsLoop fs dir names (parts, torrents)).2 ↔
        q ∈ torrents ∨ ∃ nm, nm ∈ names ∧ q = absoluteFilePath dir nm ∧
          (strEndsWith q ".magnet" = true ∨ fs.torrentValid q = true) := by
  intro names
  induction names with
  | nil =>
      intro parts torrents q
      simp [loop_nil]
  | cons name rest ih =>
      intro parts torrents q
      have split_cons : ∀ P : String → Prop,
          (∃ nm, nm ∈ name :: rest ∧ P nm) ↔ (P name ∨ ∃ nm, nm ∈ rest ∧ P nm) := by
        intro P
        constructor
        · rintro ⟨nm, hnm, hP⟩
          rcases List.mem_cons.mp hnm with h | h
          · exact Or.inl (h ▸ hP)
          · exact Or.inr ⟨nm, h, hP⟩
        · rintro (hP | ⟨nm, hnm, hP⟩)
          · exact ⟨name, List.mem_cons_self _ _, hP⟩
          · exact ⟨nm, List.mem_cons_of_mem _ hnm, hP⟩
      by_cases h1 : strEndsWith (absoluteFilePath dir name) ".magnet" = true
      · rw [loop_cons_magnet fs dir name rest parts torrents h1, ih,
          split_cons fun nm => q = absoluteFilePath dir nm ∧
            (strEndsWith q ".magnet" = true ∨ fs.torrentValid q = true)]
        constructor
        · rintro (hq | h)
          · rcases List.mem_append.mp hq with hq | hq
            · exact Or.inl hq
            · rcases List.mem_singleton.mp hq with rfl
              exact Or.inr (Or.inl ⟨rfl, Or.inl h1⟩)
          · exact Or.inr (Or.inr h)
        · rintro (hq | ⟨rfl, _⟩ | h)
          · exact Or.inl (List.mem_append.mpr (Or.inl hq))
          · exact Or.inl (List.mem_append.mpr (Or.inr (List.mem_singleton.mpr rfl)))
          · exact Or.inr h
      · rw [Bool.not_eq_true] at h1
        by_cases h2 : fs.torrentValid (absoluteFilePath dir name) = true
        · rw [loop_cons_valid fs dir name rest parts torrents h1 h2, ih,
            split_cons fun nm => q = absoluteFilePath dir nm ∧
              (strEndsWith q ".magnet" = true ∨ fs.torrentValid q = true)]
          constructor
          · rintro (hq | h)
            · rcases List.mem_append.mp hq with hq | hq
              · exact Or.inl hq
              · rcases List.mem_singleton.mp hq with rfl
                exact Or.inr (Or.inl ⟨rfl, Or.inr h2⟩)
            · exact Or.inr (Or.inr h)
          · rintro (hq | ⟨rfl, _⟩ | h)
            · exact Or.inl (List.mem_append.mpr (Or.inl hq))
            · exact Or.inl (List.mem_append.mpr (Or.inr (List.mem_singleton.mpr rfl)))
            · exact Or.inr h
        · rw [Bool.not_eq_true] at h2
          have noNew : ¬(q = absoluteFilePath dir name ∧
              (strEndsWith q ".magnet" = true ∨ fs.torrentValid q = true)) := by
            rintro ⟨rfl, h | h⟩
            · rw [h1] at h
              exact Bool.false_ne_true h
            · rw [h2] at h
              exact Bool.false_ne_true h
          have tailIff : q ∈ (addTorrentsLoop fs dir rest (parts, torrents)).2 ↔
              q ∈ torrents ∨ ∃ nm, nm ∈ name :: rest ∧ q = absoluteFilePath dir nm ∧
                (strEndsWith q ".magnet" = true ∨ fs.torrentValid q = true) := by
            rw [ih, split_cons fun nm => q = absoluteFilePath dir nm ∧
              (strEndsWith q ".magnet" = true ∨ fs.torrentValid q = true)]
            constructor
            · rintro (hq | h)
              · exact Or.inl hq
              · exact Or.inr (Or.inr h)
            · rintro (hq | h | h)
              · exact Or.inl hq
              · exact absurd h noNew
              · exact Or.inr h
          have tailIff2 : ∀ parts2,
              q ∈ (addTorrentsLoop fs dir rest (parts2, torrents)).2 ↔
              q ∈ torrents ∨ ∃ nm, nm ∈ name :: rest ∧ q = absoluteFilePath dir nm ∧
                (strEndsWith q ".magnet" = true ∨ fs.torrentValid q = true) := by
            intro parts2
            rw [ih, split_cons fun nm => q = absoluteFilePath dir nm ∧
              (strEndsWith q ".magnet" = true ∨ fs.torrentValid q = true)]
            constructor
            · rintro (hq | h)
              · exact Or.inl hq
              · exact Or.inr (Or.inr h)
            · rintro (hq | h | h)
              · exact Or.inl hq
              · exact absurd h noNew
              · exact Or.inr h
          by_cases h3 : (parts.any fun e => e.1 == absoluteFilePath dir name) = true
          · rw [loop_cons_seen fs dir name rest parts torrents h1 h2 h3]
            exact tailIff
          · rw [Bool.not_eq_true] at h3
            rw [loop_cons_new fs dir name rest parts torrents h1 h2 h3]
            exact tailIff2 _

theorem addTorrentsLoop_registers (fs : FS) (dir : String) :
    ∀ (names : List String) (parts : List (String × Nat)) (torrents : List String)
      (nm : String),
      nm ∈ names →
      strEndsWith (absoluteFilePath dir nm) ".magnet" = false →
      fs.torrentValid (absoluteFilePath dir nm) = false →
      (absoluteFilePath dir nm, 0) ∈ (addTorrentsLoop fs dir names (parts, torrents)).1
        ∨ absoluteFilePath dir nm ∈ keys parts := by
  intro names
  induction names with
  | nil =>
      intro parts torrents nm hmem
      exact absurd hmem (List.not_mem_nil _)
  | cons name rest ih =>
      intro parts torrents nm hmem hmag hval
      by_cases h1 : strEndsWith (absoluteFilePath dir name) ".magnet" = true
      · rw [loop_cons_magnet fs dir name rest parts torrents h1]
        rcases List.mem_cons.mp hmem with rfl | hmem2
        · rw [hmag] at h1
          exact absurd h1 Bool.false_ne_true
        · exact ih parts _ nm hmem2 hmag hval
      · rw [Bool.not_eq_true] at h1
        by_cases h2 : fs.torrentValid (absoluteFilePath dir name) = true
        · rw [loop_cons_valid fs dir name rest parts torrents h1 h2]
          rcases List.mem_cons.mp hmem with rfl | hmem2
          · rw [hval] at h2
            exact absurd h2 Bool.false_ne_true
          · exact ih parts _ nm hmem2 hmag hval
        · rw [Bool.not_eq_true] at h2
          by_cases h3 : (parts.any fun e => e.1 == absoluteFilePath dir name) = true
          · rw [loop_cons_seen fs dir name rest parts torrents h1 h2 h3]
            rcases List.mem_cons.mp hmem with rfl | hmem2
            · exact Or.inr ((any_key_iff parts _).mp h3)
            · exact ih parts torrents nm hmem2 hmag hval
          · rw [Bool.not_eq_true] at h3
            rw [loop_cons_new fs dir name rest parts torrents h1 h2 h3]
            have base : (absoluteFilePath dir name, 0) ∈
                (addTorrentsLoop fs dir rest
                  (parts ++ [(absoluteFilePath dir name, 0)], torrents)).1 := by
              obtain ⟨extra, he, -⟩ :=
                addTorrentsLoop_parts fs dir rest (parts ++ [(absoluteFilePath dir name, 0)])
                  torrents
              rw [he]
              exact List.mem_append.mpr (Or.inl (List.mem_append.mpr (Or.inr
                (List.mem_singleton.mpr rfl))))
            rcases List.mem_cons.mp hmem with rfl | hmem2
            · exact Or.inl base
            · rcases ih (parts ++ [(absoluteFilePath dir name, 0)]) torrents nm hmem2
                hmag hval with h | h
              · exact Or.inl h
              · rcases List.mem_map.mp h with ⟨e, hme, heq⟩
                rcases List.mem_append.mp hme with hme | hme
                · exact Or.inr (List.mem_map.mpr ⟨e, hme, heq⟩)
                · rcases List.mem_singleton.mp hme with rfl
                  rw [← heq]
                  exact Or.inl base

theorem addTorrentsFromDir_parts (fs : FS) (dir : String) (s : WState)
    (torrents : List String) :
    (addTorrentsFromDir fs dir s torrents).1.partialTorrents
      = (addTorrentsLoop fs dir (entryList (fs.dirFiles dir))
          (s.partialTorrents, torrents)).1 := by
  simp only [addTorrentsFromDir, startPartialTorrentTimer]
  split
  · rfl
  · split
    · rfl
    · rfl

theorem addTorrentsFromDir_batch (fs : FS) (dir : String) (s : WState)
    (torrents : List String) :
    (addTorrentsFromDir fs dir s torrents).2
      = (addTorrentsLoop fs dir (entryList (fs.dirFiles dir))
          (s.partialTorrents, torrents)).2 := by
  simp only [addTorrentsFromDir, startPartialTorrentTimer]

theorem addTorrentsFromDir_watch_fields (fs : FS) (dir : String) (s : WState)
    (torrents : List String) :
    (addTorrentsFromDir fs dir s torrents).1.watchTimer = s.watchTimer
      ∧ (addTorrentsFromDir fs dir s torrents).1.watchedFolders = s.watchedFolders
      ∧ (addTorrentsFromDir fs dir s torrents).1.qfswDirs = s.qfswDirs := by
  simp only [addTorrentsFromDir, startPartialTorrentTimer]
  split
  · exact ⟨rfl, rfl, rfl⟩
  · split
    · exact ⟨rfl, rfl, rfl⟩
    · exact ⟨rfl, rfl, rfl⟩

theorem startPT_timer (s : WState) :
    (startPartialTorrentTimer s).partialTimer = true := by
  simp only [startPartialTorrentTimer]
  split
  · rename_i h
    exact h
  · rfl

theorem startPT_parts (s : WState) :
    (startPartialTorrentTimer s).partialTorrents = s.partialTorrents := by
  simp only [startPartialTorrentTimer]
  split <;> rfl

theorem addTorrentsFromDir_recon (fs : FS) (dir : String) (s : WState)
    (torrents : List String) (h : ReconTimerInv s) :
    ReconTimerInv (addTorrentsFromDir fs dir s torrents).1 := by
  obtain ⟨extra, he, -⟩ :=
    addTorrentsLoop_parts fs dir (entryList (fs.dirFiles dir)) s.partialTorrents torrents
  unfold ReconTimerInv at h ⊢
  simp only [addTorrentsFromDir]
  split
  · rename_i hempty
    have hnil := List.isEmpty_iff.mp hempty
    have hs : s.partialTorrents = [] := by
      rw [he] at hnil
      exact (List.append_eq_nil.mp hnil).1
    constructor
    · intro ht
      exact absurd (h.mp ht) (by simp [hs])
    · intro hne
      exact (hne hnil).elim
  · rename_i hempty
    have hne : (addTorrentsLoop fs dir (entryList (fs.dirFiles dir))
        (s.partialTorrents, torrents)).1 ≠ [] := by
      intro hn
      exact hempty (by simp [hn])
    rw [startPT_timer, startPT_parts]
    simp only [true_iff]
    exact hne

theorem scanFold_recon (fs : FS) :
    ∀ (dirs : List String) (s : WState) (t : List String), ReconTimerInv s →
      ReconTimerInv ((dirs.foldl
        (fun acc dir => addTorrentsFromDir fs dir acc.1 acc.2) (s, t)).1) := by
  intro dirs
  induction dirs with
  | nil => intro s t h; exact h
  | cons d rest ih =>
      intro s t h
      simp only [List.foldl_cons]
      have step := addTorrentsFromDir_recon fs d s t h
      have hpair : addTorrentsFromDir fs d s t
          = ((addTorrentsFromDir fs d s t).1, (addTorrentsFromDir fs d s t).2) := rfl
      rw [hpair]
      exact ih _ _ step

theorem scanFold_watch_fields (fs : FS) :
    ∀ (dirs : List String) (s : WState) (t : List String),
      ((dirs.foldl (fun acc dir => addTorrentsFromDir fs dir acc.1 acc.2) (s, t)).1.watchTimer
          = s.watchTimer)
      ∧ ((dirs.foldl (fun acc dir => addTorrentsFromDir fs dir acc.1 acc.2) (s, t)).1.watchedFolders
          = s.watchedFolders)
      ∧ ((dirs.foldl (fun acc dir => addTorrentsFromDir fs dir acc.1 acc.2) (s, t)).1.qfswDirs
          = s.qfswDirs) := by
  intro dirs
  induction dirs with
  | nil => intro s t; exact ⟨rfl, rfl, rfl⟩
  | cons d rest ih =>
      intro s t
      simp only [List.foldl_cons]
      have hpair : addTorrentsFromDir fs d s t
          = ((addTorrentsFromDir fs d s t).1, (addTorrentsFromDir fs d s t).2) := rfl
      rw [hpair]
      obtain ⟨f1, f2, f3⟩ := addTorrentsFromDir_watch_fields fs d s t
      obtain ⟨g1, g2, g3⟩ := ih (addTorrentsFromDir fs d s t).1 (addTorrentsFromDir fs d s t).2
      exact ⟨g1.trans f1, g2.trans f2, g3.trans f3⟩

theorem scanLocalFolder_recon (fs : FS) (path : String) (s : WState)
    (h : ReconTimerInv s) : ReconTimerInv (scanLocalFolder fs path s).1 :=
  addTorrentsFromDir_recon fs path s [] h

theorem scanNetworkFolders_recon (fs : FS) (s : WState) (h : ReconTimerInv s) :
    ReconTimerInv (scanNetworkFolders fs s).1 :=
  scanFold_recon fs s.watchedFolders s [] h

theorem scanLocalFolder_watch_fields (fs : FS) (path : String) (s : WState) :
    (scanLocalFolder fs path s).1.watchTimer = s.watchTimer
      ∧ (scanLocalFolder fs path s).1.watchedFolders = s.watchedFolders
      ∧ (scanLocalFolder fs path s).1.qfswDirs = s.qfswDirs :=
  addTorrentsFromDir_watch_fields fs path s []

theorem scanNetworkFolders_watch_fields (fs : FS) (s : WState) :
    (scanNetworkFolders fs s).1.watchTimer = s.watchTimer
      ∧ (scanNetworkFolders fs s).1.watchedFolders = s.watchedFolders
      ∧ (scanNetworkFolders fs s).1.qfswDirs = s.qfswDirs :=
  scanFold_watch_fields fs s.watchedFolders s []

theorem processPartialTorrents_foldl (fs : FS) :
    ∀ (l : List (String × Nat)) (k : List (String × Nat)) (r n : List String),
      l.foldl (partialScanStep fs) (k, r, n)
        = (k ++ l.filterMap (specKeep fs), r ++ l.filterMap (specReady fs),
           n ++ l.filterMap (specRename fs)) := by
  intro l
  induction l with
  | nil => intro k r n; simp
  | cons e rest ih =>
      intro k r n
      simp only [List.foldl_cons]
      by_cases h1 : fs.fileExists e.1 = false
      · have hstep : partialScanStep fs (k, r, n) e = (k, r, n) := by
          simp [partialScanStep, h1]
        rw [hstep, ih]
        simp [specKeep, specReady, specRename, h1]
      · rw [Bool.not_eq_false] at h1
        by_cases h2 : fs.torrentValid e.1 = true
        · have hstep : partialScanStep fs (k, r, n) e = (k, r ++ [e.1], n) := by
            simp [partialScanStep, h1, h2]
          rw [hstep, ih]
          simp [specKeep, specReady, specRename, h1, h2]
        · rw [Bool.not_eq_true] at h2
          by_cases h3 : MAX_PARTIAL_RETRIES ≤ e.2
          · have hstep : partialScanStep fs (k, r, n) e
                = (k, r, n ++ [e.1 ++ ".invalid"]) := by
              simp [partialScanStep, h1, h2, h3]
            rw [hstep, ih]
            simp [specKeep, specReady, specRename, h1, h2, h3]
          · have hstep : partialScanStep fs (k, r, n) e
                = (k ++ [(e.1, e.2 + 1)], r, n) := by
              simp [partialScanStep, h1, h2, h3]
            rw [hstep, ih]
            simp [specKeep, specReady, specRename, h1, h2, h3]

theorem processPartialTorrents_parts (fs : FS) (s : WState) :
    (processPartialTorrents fs s).1.partialTorrents
      = s.partialTorrents.filterMap (specKeep fs) := by
  simp only [processPartialTorrents, processPartialTorrents_foldl, List.nil_append]

theorem processPartialTorrents_reports (fs : FS) (s : WState) :
    (processPartialTorrents fs s).2.1
      = (if (s.partialTorrents.filterMap (specReady fs)).isEmpty then []
         else [s.partialTorrents.filterMap (specReady fs)]) := by
  simp only [processPartialTorrents, processPartialTorrents_foldl, List.nil_append]

theorem processPartialTorrents_renames (fs : FS) (s : WState) :
    (processPartialTorrents fs s).2.2
      = s.partialTorrents.filterMap (specRename fs) := by
  simp only [processPartialTorrents, processPartialTorrents_foldl, List.nil_append]

theorem processPartialTorrents_recon (fs : FS) (s : WState) :
    ReconTimerInv (processPartialTorrents fs s).1 := by
  unfold ReconTimerInv
  simp only [processPartialTorrents]
  split
  · rename_i hempty
    simp [List.isEmpty_iff.mp hempty]
  · rename_i hempty
    simp only [true_iff]
    intro hn
    exact hempty (by simp [hn])

theorem processPartialTorrents_watch_fields (fs : FS) (s : WState) :
    (processPartialTorrents fs s).1.watchTimer = s.watchTimer
      ∧ (processPartialTorrents fs s).1.watchedFolders = s.watchedFolders
      ∧ (processPartialTorrents fs s).1.qfswDirs = s.qfswDirs :=
  ⟨rfl, rfl, rfl⟩

theorem addPath_recon (fs : FS) (path : String) (s : WState)
    (h : ReconTimerInv s) : ReconTimerInv (addPath fs path s).1 := by
  simp only [addPath]
  split
  · split
    · split
      · exact h
      · exact h
    · split
      · exact scanLocalFolder_recon fs path s h
      · exact scanLocalFolder_recon fs path _ h
  · exact h

theorem removePath_recon (path : String) (s : WState)
    (h : ReconTimerInv s) : ReconTimerInv (removePath path s) := by
  unfold removePath
  split
  · split
    · exact h
    · exact h
  · exact h

theorem stepOp_recon (fs : FS) (op : Op) (s : WState)
    (h : ReconTimerInv s) : ReconTimerInv (stepOp fs op s) := by
  cases op with
  | add p => exact addPath_recon fs p s h
  | remove p => exact removePath_recon p s h
  | localEvent p =>
      simp only [stepOp]
      split
      · exact scanLocalFolder_recon fs p s h
      · exact h
  | netTick =>
      simp only [stepOp]
      split
      · exact scanNetworkFolders_recon fs s h
      · exact h
  | partialTick =>
      simp only [stepOp]
      split
      · exact processPartialTorrents_recon fs s
      · exact h

theorem addPath_poll (fs : FS) (path : String) (s : WState)
    (h : PollTimerInv s) : PollTimerInv (addPath fs path s).1 := by
  simp only [addPath, PollTimerInv] at h ⊢
  split
  · split
    · split
      · rename_i htimer
        constructor
        · intro _
          simp
        · intro _
          exact htimer
      · simp
    · split
      · obtain ⟨f1, f2, -⟩ := scanLocalFolder_watch_fields fs path s
        rw [f1, f2]
        exact h
      · obtain ⟨f1, f2, -⟩ := scanLocalFolder_watch_fields fs path
          { s with qfswDirs := s.qfswDirs ++ [path] }
        rw [f1, f2]
        exact h
  · exact h

theorem removePath_poll (path : String) (s : WState)
    (h : PollTimerInv s) : PollTimerInv (removePath path s) := by
  unfold removePath PollTimerInv
  split
  · rename_i folders hfound
    split
    · rename_i hempty
      simp only
      constructor
      · intro hfalse
        exact absurd hfalse (by simp)
      · intro hne
        exact (hne (List.isEmpty_iff.mp hempty)).elim
    · rename_i hempty
      simp only
      constructor
      · intro _
        intro hn
        exact hempty (by simp [hn])
      · intro _
        apply h.mpr
        intro hn
        rw [hn] at hfound
        simp [removeFirst] at hfound
  · exact h

theorem stepOp_poll (fs : FS) (op : Op) (s : WState)
    (h : PollTimerInv s) : PollTimerInv (stepOp fs op s) := by
  cases op with
  | add p => exact addPath_poll fs p s h
  | remove p => exact removePath_poll p s h
  | localEvent p =>
      simp only [stepOp]
      split
      · obtain ⟨f1, f2, -⟩ := scanLocalFolder_watch_fields fs p s
        unfold PollTimerInv at h ⊢
        rw [f1, f2]
        exact h
      · exact h
  | netTick =>
      simp only [stepOp]
      split
      · obtain ⟨f1, f2, -⟩ := scanNetworkFolders_watch_fields fs s
        unfold PollTimerInv at h ⊢
        rw [f1, f2]
        exact h
      · exact h
  | partialTick =>
      simp only [stepOp]
      split
      · obtain ⟨f1, f2, -⟩ := processPartialTorrents_watch_fields fs s
        unfold PollTimerInv at h ⊢
        rw [f1, f2]
        exact h
      · exact h

theorem run_recon (tr : List (FS × Op)) : ReconTimerInv (run tr) := by
  unfold run
  have gen : ∀ (l : List (FS × Op)) (s : WState), ReconTimerInv s →
      ReconTimerInv (l.foldl (fun s e => stepOp e.1 e.2 s) s) := by
    intro l
    induction l with
    | nil => intro s h; exact h
    | cons e rest ih =>
        intro s h
        exact ih _ (stepOp_recon e.1 e.2 s h)
  exact gen tr initialState (by simp [ReconTimerInv, initialState])

theorem run_poll (tr : List (FS × Op)) : PollTimerInv (run tr) := by
  unfold run
  have gen : ∀ (l : List (FS × Op)) (s : WState), PollTimerInv s →
      PollTimerInv (l.foldl (fun s e => stepOp e.1 e.2 s) s) := by
    intro l
    induction l with
    | nil => intro s h; exact h
    | cons e rest ih =>
        intro s h
        exact ih _ (stepOp_poll e.1 e.2 s h)
  exact gen tr initialState (by simp [PollTimerInv, initialState])

theorem addPath_net (fs : FS) (p : String) (s : WState)
    (h1 : fs.dirExists p = true) (h2 : isNetworkFileSystem fs p = true) :
    (addPath fs p s).1.watchedFolders = s.watchedFolders ++ [p]
      ∧ (addPath fs p s).1.watchTimer = true
      ∧ (addPath fs p s).1.partialTorrents = s.partialTorrents
      ∧ (addPath fs p s).1.partialTimer = s.partialTimer
      ∧ (addPath fs p s).1.qfswDirs = s.qfswDirs := by
  simp only [addPath, h1, h2, if_true]
  split
  · rename_i ht
    exact ⟨rfl, ht, rfl, rfl, rfl⟩
  · exact ⟨rfl, rfl, rfl, rfl, rfl⟩

theorem addTorrentsFromDir_bound (fs : FS) (dir : String) (s : WState)
    (torrents : List String)
    (h : ∀ e ∈ s.partialTorrents, e.2 ≤ MAX_PARTIAL_RETRIES) :
    ∀ e ∈ (addTorrentsFromDir fs dir s torrents).1.partialTorrents,
      e.2 ≤ MAX_PARTIAL_RETRIES := by
  rw [addTorrentsFromDir_parts]
  obtain ⟨extra, he, hp⟩ :=
    addTorrentsLoop_parts fs dir (entryList (fs.dirFiles dir)) s.partialTorrents torrents
  rw [he]
  intro e hm
  rcases List.mem_append.mp hm with hm | hm
  · exact h e hm
  · rw [(hp e hm).1]
    exact Nat.zero_le _

theorem scanFold_bound (fs : FS) :
    ∀ (dirs : List String) (s : WState) (t : List String),
      (∀ e ∈ s.partialTorrents, e.2 ≤ MAX_PARTIAL_RETRIES) →
      ∀ e ∈ ((dirs.foldl
          (fun acc dir => addTorrentsFromDir fs dir acc.1 acc.2) (s, t)).1.partialTorrents),
        e.2 ≤ MAX_PARTIAL_RETRIES := by
  intro dirs
  induction dirs with
  | nil => intro s t h; exact h
  | cons d rest ih =>
      intro s t h
      simp only [List.foldl_cons]
      have hpair : addTorrentsFromDir fs d s t
          = ((addTorrentsFromDir fs d s t).1, (addTorrentsFromDir fs d s t).2) := rfl
      rw [hpair]
      exact ih _ _ (addTorrentsFromDir_bound fs d s t h)

theorem processPartialTorrents_bound (fs : FS) (s : WState) :
    ∀ e ∈ (processPartialTorrents fs s).1.partialTorrents,
      e.2 ≤ MAX_PARTIAL_RETRIES := by
  rw [processPartialTorrents_parts]
  intro e hm
  rcases List.mem_filterMap.mp hm with ⟨a, _, hspec⟩
  unfold specKeep at hspec
  split at hspec
  · exact absurd hspec (by simp)
  · split at hspec
    · exact absurd hspec (by simp)
    · split at hspec
      · exact absurd hspec (by simp)
      · rename_i hlt
        rcases Option.some_inj.mp hspec with rfl
        simp only
        omega

theorem stepOp_bound (fs : FS) (op : Op) (s : WState)
    (h : ∀ e ∈ s.partialTorrents, e.2 ≤ MAX_PARTIAL_RETRIES) :
    ∀ e ∈ (stepOp fs op s).partialTorrents, e.2 ≤ MAX_PARTIAL_RETRIES := by
  cases op with
  | add p =>
      simp only [stepOp, addPath]
      split
      · split
        · split
          · exact h
          · exact h
        · split
          · exact addTorrentsFromDir_bound fs p s [] h
          · exact addTorrentsFromDir_bound fs p _ [] h
      · exact h
  | remove p =>
      simp only [stepOp, removePath]
      split
      · split
        · exact h
        · exact h
      · exact h
  | localEvent p =>
      simp only [stepOp]
      split
      · exact addTorrentsFromDir_bound fs p s [] h
      · exact h
  | netTick =>
      simp only [stepOp]
      split
      · exact scanFold_bound fs s.watchedFolders s [] h
      · exact h
  | partialTick =>
      simp only [stepOp]
      split
      · exact processPartialTorrents_bound fs s
      · exact h

theorem run_bound (tr : List (FS × Op)) :
    ∀ e ∈ (run tr).partialTorrents, e.2 ≤ MAX_PARTIAL_RETRIES := by
  unfold run
  have gen : ∀ (l : List (FS × Op)) (s : WState),
      (∀ e ∈ s.partialTorrents, e.2 ≤ MAX_PARTIAL_RETRIES) →
      ∀ e ∈ (l.foldl (fun s e => stepOp e.1 e.2 s) s).partialTorrents,
        e.2 ≤ MAX_PARTIAL_RETRIES := by
    intro l
    induction l with
    | nil => intro s h; exact h
    | cons e rest ih =>
        intro s h
        exact ih _ (stepOp_bound e.1 e.2 s h)
  exact gen tr initialState (by simp [initialState])

theorem tick_incr (fs : FS) (p : String) (n : Nat)
    (h1 : fs.fileExists p = true) (h2 : fs.torrentValid p = false)
    (hn : n < MAX_PARTIAL_RETRIES) :
    processPartialTorrents fs (partialState p n) = (partialState p (n + 1), [], []) := by
  simp [processPartialTorrents, partialState, partialScanStep, h1, h2, Nat.not_le.mpr hn]

theorem tick_drain (fs : FS) (p : String)
    (h1 : fs.fileExists p = true) (h2 : fs.torrentValid p = false) :
    processPartialTorrents fs (partialState p MAX_PARTIAL_RETRIES)
      = (initialState, [], [p ++ ".invalid"]) := by
  simp [processPartialTorrents, partialState, initialState, partialScanStep, h1, h2]

theorem ticks_chain (fs : FS) (p : String)
    (h1 : fs.fileExists p = true) (h2 : fs.torrentValid p = false) :
    ∀ (k n : Nat), n + k ≤ MAX_PARTIAL_RETRIES →
      runPartialTicks fs k (partialState p n) = (partialState p (n + k), [], []) := by
  intro k
  induction k with
  | zero =>
      intro n h
      simp [runPartialTicks]
  | succ k ih =>
      intro n h
      have htimer : (partialState p n).partialTimer = true := rfl
      simp only [runPartialTicks, htimer, if_true]
      rw [tick_incr fs p n h1 h2 (by omega)]
      rw [ih (n + 1) (by omega)]
      have harith : n + 1 + k = n + (k + 1) := by omega
      rw [harith]
      simp

theorem ticks_full (fs : FS) (p : String)
    (h1 : fs.fileExists p = true) (h2 : fs.torrentValid p = false) :
    ∀ (k n : Nat), n + k = MAX_PARTIAL_RETRIES + 1 → n ≤ MAX_PARTIAL_RETRIES →
      runPartialTicks fs k (partialState p n) = (initialState, [], [p ++ ".invalid"]) := by
  intro k
  induction k with
  | zero =>
      intro n h hn
      exact absurd h (by unfold MAX_PARTIAL_RETRIES at *; omega)
  | succ k ih =>
      intro n h hn
      have htimer : (partialState p n).partialTimer = true := rfl
      simp only [runPartialTicks, htimer, if_true]
      by_cases hlt : n < MAX_PARTIAL_RETRIES
      · rw [tick_incr fs p n h1 h2 hlt]
        rw [ih (n + 1) (by omega) (by omega)]
        simp
      · have hn5 : n = MAX_PARTIAL_RETRIES := by omega
        have hk0 : k = 0 := by
          unfold MAX_PARTIAL_RETRIES at *
          omega
        subst hn5
        subst hk0
        rw [tick_drain fs p h1 h2]
        have hstop : runPartialTicks fs 0 initialState = (initialState, [], []) := rfl
        rw [hstop]
        simp

theorem invalid_no_match (base : String) :
    matchesFilters (base ++ ".invalid") = false := by
  unfold matchesFilters strEndsWith
  simp only [List.isSuffixOf, String.data_append, List.reverse_append]
  have e1 : (".torrent".data).reverse = ['t', 'n', 'e', 'r', 'r', 'o', 't', '.'] := by decide
  have e2 : (".magnet".data).reverse = ['t', 'e', 'n', 'g', 'a', 'm', '.'] := by decide
  have e3 : (".invalid".data).reverse = ['d', 'i', 'l', 'a', 'v', 'n', 'i', '.'] := by decide
  rw [e1, e2, e3]
  simp only [List.cons_append, List.isPrefixOf_cons₂]
  have hc : (('t' == 'd') : Bool) = false := by decide
  rw [hc]
  simp

/-- C1: the claim that a second `addPath` of the same existing Network
directory leaves at most one entry for it in the watched set and makes each
poll interval scan it once is false on the code: `m_watchedFolders` is a list
appended with `<<` without a duplicate check, so the folder appears twice and
one `scanNetworkFolders` pass scans it twice, reporting its magnet file
twice in the poll report. -/
theorem c1_counterexample :
    (stepOp fsNet (Op.add "/net") (stepOp fsNet (Op.add "/net") initialState)).watchedFolders
        = ["/net", "/net"]
      ∧ ¬ ((stepOp fsNet (Op.add "/net")
            (stepOp fsNet (Op.add "/net") initialState)).watchedFolders.length ≤ 1)
      ∧ (scanNetworkFolders fsNet (stepOp fsNet (Op.add "/net")
            (stepOp fsNet (Op.add "/net") initialState))).2
        = [["/net/m.magnet", "/net/m.magnet"]] := by
  refine ⟨by decide, by decide, by decide⟩

/-- C1 (amended): calling `addPath` twice on the same existing Network
directory creates exactly one poll timer (the timer handle is set once and
stays set), but appends the path to the watched-folders list once per call,
so after two calls the list carries two entries for the path and each poll
interval scans it twice. -/
theorem c1_add_twice (fs : FS) (p : String) (s : WState)
    (h1 : fs.dirExists p = true) (h2 : isNetworkFileSystem fs p = true) :
    (addPath fs p (addPath fs p s).1).1.watchedFolders = s.watchedFolders ++ [p, p]
      ∧ (addPath fs p (addPath fs p s).1).1.watchTimer = true := by
  obtain ⟨w1, t1, -, -, -⟩ := addPath_net fs p s h1 h2
  obtain ⟨w2, t2, -, -, -⟩ := addPath_net fs p (addPath fs p s).1 h1 h2
  constructor
  · rw [w2, w1, List.append_assoc]
    rfl
  · exact t2

/-- Witness for the amended C1 at a concrete network directory. -/
theorem c1_add_twice_witness :
    (addPath fsNet "/net" (addPath fsNet "/net" initialState).1).1.watchedFolders
        = initialState.watchedFolders ++ ["/net", "/net"]
      ∧ (addPath fsNet "/net" (addPath fsNet "/net" initialState).1).1.watchTimer = true :=
  c1_add_twice fsNet "/net" initialState (by decide) (by decide)

/-- C2: in every state reachable from the fresh watcher by any trace of
operations, the partial-file reconciliation timer exists and is armed iff the
set of tracked partial files is non-empty; in particular, after the tracker
drains (timer discarded) a scan registering a new partial file re-creates an
armed timer, since the reached state again satisfies the equivalence. -/
theorem c2_recon_timer_iff_tracked (tr : List (FS × Op)) :
    (run tr).partialTimer = true ↔ (run tr).partialTorrents ≠ [] :=
  run_recon tr

/-- C3: in every state reachable from the fresh watcher by any trace of
operations, the network poll timer exists and runs iff the network
watched-folders list is non-empty; in particular removing the last network
directory discards the timer and a later network `addPath` re-creates it. -/
theorem c3_poll_timer_iff_watched (tr : List (FS × Op)) :
    (run tr).watchTimer = true ↔ (run tr).watchedFolders ≠ [] :=
  run_poll tr

/-- C4: the claim that a path is never both in an emitted ready report and
still tracked as partial at the moment of the report is false on the code:
a directory scan (`addTorrentsFromDir`) reports a tracked file that has become
valid but does not remove it from `m_partialTorrents`.  Concretely, a first
scan registers `a.torrent` as partial; a second scan after the file became
valid emits it in a report while the tracker still holds it at retry count 0
(so the next reconciliation tick will report it a second time). -/
theorem c4_counterexample :
    (scanLocalFolder fsDone "/d" (scanLocalFolder fsSeen "/d" initialState).1).2
        = [["/d/a.torrent"]]
      ∧ ("/d/a.torrent", 0) ∈ (scanLocalFolder fsDone "/d"
          (scanLocalFolder fsSeen "/d" initialState).1).1.partialTorrents := by
  refine ⟨by decide, by decide⟩

/-- C4 (amended): during reconciliation ticks the disjointness does hold —
every path contained in a tick's emitted report is absent from the tracker the
tick leaves behind, so a file that becomes valid by its reconciliation tick is
reported there and removed from tracking.  (A directory scan, by contrast, can
report a still-tracked path without untracking it.) -/
theorem c4_tick_report_untracks (fs : FS) (s : WState) (p : String)
    (b : List String) (hb : b ∈ (processPartialTorrents fs s).2.1)
    (hp : p ∈ b) :
    p ∉ keys (processPartialTorrents fs s).1.partialTorrents := by
  rw [processPartialTorrents_reports] at hb
  have hb2 : b = s.partialTorrents.filterMap (specReady fs) := by
    by_cases hempty : (s.partialTorrents.filterMap (specReady fs)).isEmpty = true
    · rw [if_pos hempty] at hb
      exact absurd hb (List.not_mem_nil b)
    · rw [if_neg hempty] at hb
      exact List.mem_singleton.mp hb
  subst hb2
  rcases List.mem_filterMap.mp hp with ⟨a, _, hspec⟩
  have hval : fs.torrentValid a.1 = true ∧ a.1 = p := by
    unfold specReady at hspec
    split at hspec
    · exact absurd hspec (by simp)
    · split at hspec
      · rename_i hv
        exact ⟨hv, Option.some_inj.mp hspec⟩
      · exact absurd hspec (by simp)
  rw [processPartialTorrents_parts]
  intro hk
  rcases List.mem_map.mp hk with ⟨e, he, hpe⟩
  rcases List.mem_filterMap.mp he with ⟨a2, _, hka⟩
  have hval2 : fs.torrentValid a2.1 = false ∧ a2.1 = e.1 := by
    unfold specKeep at hka
    split at hka
    · exact absurd hka (by simp)
    · split at hka
      · exact absurd hka (by simp)
      · split at hka
        · exact absurd hka (by simp)
        · rename_i hv _
          rcases Option.some_inj.mp hka with rfl
          refine ⟨?_, rfl⟩
          simpa using hv
  have hfalse : fs.torrentValid p = false := by
    rw [← hpe, ← hval2.2]
    exact hval2.1
  have htrue : fs.torrentValid p = true := by
    rw [← hval.2]
    exact hval.1
  rw [htrue] at hfalse
  exact absurd hfalse (by decide)

/-- Witness for the amended C4: a tracked file that validates at its tick is
reported by the tick and is no longer tracked afterwards. -/
theorem c4_tick_report_untracks_witness :
    "/d/a.torrent" ∉ keys
      (processPartialTorrents fsDone (partialState "/d/a.torrent" 0)).1.partialTorrents :=
  c4_tick_report_untracks fsDone (partialState "/d/a.torrent" 0) "/d/a.torrent"
    ["/d/a.torrent"] (by decide) (by decide)

/-- C5: the claim that a permanently failing file registered at retry count 0
is removed and renamed after exactly `MAX_PARTIAL_RETRIES` (= 5)
reconciliation ticks is false on the code: the retry counter is incremented
on ticks 1..5 and the rename-and-drop happens only on tick 6, when the count
already equals the ceiling.  For the concrete run (`b.torrent` registered by
an `addPath` scan, never valid), after 5 ticks the file is still tracked at
retry count 5 and nothing has been renamed. -/
theorem c5_counterexample :
    (runPartialTicks fsBad MAX_PARTIAL_RETRIES
        (stepOp fsBad (Op.add "/d") initialState)).1.partialTorrents
      = [("/d/b.torrent", 5)]
      ∧ (runPartialTicks fsBad MAX_PARTIAL_RETRIES
          (stepOp fsBad (Op.add "/d") initialState)).2.2 = []
      ∧ (runPartialTicks fsBad MAX_PARTIAL_RETRIES
          (stepOp fsBad (Op.add "/d") initialState)).2.1 = [] := by
  refine ⟨by decide, by decide, by decide⟩

/-- C5 (amended): a tracked file that exists and fails validation on every
reconciliation tick after being registered at retry count 0 is removed from
tracking and renamed with the `.invalid` suffix after exactly
`MAX_PARTIAL_RETRIES + 1` (= 6) reconciliation ticks, and its path never
appears in any emitted ready report of the run. -/
theorem c5_invalidated_after_six_ticks (fs : FS) (p : String)
    (h1 : fs.fileExists p = true) (h2 : fs.torrentValid p = false) :
    runPartialTicks fs (MAX_PARTIAL_RETRIES + 1) (partialState p 0)
      = (initialState, [], [p ++ ".invalid"]) :=
  ticks_full fs p h1 h2 (MAX_PARTIAL_RETRIES + 1) 0 rfl (by omega)

/-- Witness for the amended C5 at the concrete permanently-malformed file. -/
theorem c5_invalidated_after_six_ticks_witness :
    runPartialTicks fsBad (MAX_PARTIAL_RETRIES + 1) (partialState "/d/b.torrent" 0)
      = (initialState, [], ["/d/b.torrent" ++ ".invalid"]) :=
  c5_invalidated_after_six_ticks fsBad "/d/b.torrent" (by decide) (by decide)

/-- C6: the retry counter of a tracked entry never exceeds the ceiling
`MAX_PARTIAL_RETRIES` in any reachable state; after `k ≤ 5` consecutive
failing ticks a file registered at retry count 0 is still tracked with count
exactly `k`; and when the counter has reached the ceiling, the next failing
tick removes the entry (renaming the file) instead of incrementing further. -/
theorem c6_retry_count_ceiling :
    (∀ tr : List (FS × Op), ∀ e ∈ (run tr).partialTorrents, e.2 ≤ MAX_PARTIAL_RETRIES)
    ∧ (∀ (fs : FS) (p : String) (k : Nat),
        fs.fileExists p = true → fs.torrentValid p = false → k ≤ MAX_PARTIAL_RETRIES →
        (runPartialTicks fs k (partialState p 0)).1.partialTorrents = [(p, k)])
    ∧ (∀ (fs : FS) (p : String),
        fs.fileExists p = true → fs.torrentValid p = false →
        processPartialTorrents fs (partialState p MAX_PARTIAL_RETRIES)
          = (initialState, [], [p ++ ".invalid"])) := by
  refine ⟨run_bound, ?_, fun fs p h1 h2 => tick_drain fs p h1 h2⟩
  intro fs p k h1 h2 hk
  rw [ticks_chain fs p h1 h2 k 0 (by omega)]
  simp [partialState]

/-- Witness for C6: three concrete instantiations, one per conjunct. -/
theorem c6_retry_count_ceiling_witness :
    (∀ e ∈ (run [(fsBad, Op.add "/d")]).partialTorrents, e.2 ≤ MAX_PARTIAL_RETRIES)
      ∧ (runPartialTicks fsBad 3 (partialState "/d/b.torrent" 0)).1.partialTorrents
          = [("/d/b.torrent", 3)]
      ∧ processPartialTorrents fsBad (partialState "/d/b.torrent" MAX_PARTIAL_RETRIES)
          = (initialState, [], ["/d/b.torrent" ++ ".invalid"]) :=
  ⟨c6_retry_count_ceiling.1 [(fsBad, Op.add "/d")],
   c6_retry_count_ceiling.2.1 fsBad "/d/b.torrent" 3 (by decide) (by decide) (by decide),
   c6_retry_count_ceiling.2.2 fsBad "/d/b.torrent" (by decide) (by decide)⟩

/-- C7: one reconciliation tick evaluates every tracked entry independently by
exactly the four-case transition of the spec (`specKeep` / `specReady` /
`specRename`, written from §4.4): the surviving tracker, the renamed files and
the emitted report of `processPartialTorrents` are pointwise images of the
previous tracker under those per-entry functions. -/
theorem c7_tick_transition (fs : FS) (s : WState) :
    (processPartialTorrents fs s).1.partialTorrents
        = s.partialTorrents.filterMap (specKeep fs)
      ∧ (processPartialTorrents fs s).2.2
        = s.partialTorrents.filterMap (specRename fs)
      ∧ (processPartialTorrents fs s).2.1
        = (if (s.partialTorrents.filterMap (specReady fs)).isEmpty then []
           else [s.partialTorrents.filterMap (specReady fs)]) :=
  ⟨processPartialTorrents_parts fs s, processPartialTorrents_renames fs s,
   processPartialTorrents_reports fs s⟩

/-- C8: for every pattern-matching entry of one directory scan: a
magnet-suffixed path is put in the ready batch unconditionally; a validating
path is put in the batch; a non-magnet path failing validation is never in
the batch, and if it was not already tracked it is registered as partial at
retry count 0. -/
theorem c8_scan_classification (fs : FS) (dir : String) (s : WState) (name : String)
    (hmem : name ∈ entryList (fs.dirFiles dir)) :
    (strEndsWith (absoluteFilePath dir name) ".magnet" = true →
        absoluteFilePath dir name ∈ (addTorrentsFromDir fs dir s []).2)
      ∧ (fs.torrentValid (absoluteFilePath dir name) = true →
        absoluteFilePath dir name ∈ (addTorrentsFromDir fs dir s []).2)
      ∧ (strEndsWith (absoluteFilePath dir name) ".magnet" = false →
        fs.torrentValid (absoluteFilePath dir name) = false →
          absoluteFilePath dir name ∉ (addTorrentsFromDir fs dir s []).2
          ∧ (absoluteFilePath dir name ∉ keys s.partialTorrents →
             (absoluteFilePath dir name, 0)
               ∈ (addTorrentsFromDir fs dir s []).1.partialTorrents)) := by
  rw [addTorrentsFromDir_batch, addTorrentsFromDir_parts]
  refine ⟨?_, ?_, ?_⟩
  · intro hmag
    rw [addTorrentsLoop_torrents]
    exact Or.inr ⟨name, hmem, rfl, Or.inl hmag⟩
  · intro hval
    rw [addTorrentsLoop_torrents]
    exact Or.inr ⟨name, hmem, rfl, Or.inr hval⟩
  · intro hmag hval
    constructor
    · intro habs
      rw [addTorrentsLoop_torrents] at habs
      rcases habs with habs | ⟨nm, _, heq, hcond⟩
      · exact absurd habs (List.not_mem_nil _)
      · rcases hcond with hcond | hcond
        · rw [hmag] at hcond
          exact absurd hcond (by decide)
        · rw [hval] at hcond
          exact absurd hcond (by decide)
    · intro hnotk
      rcases addTorrentsLoop_registers fs dir (entryList (fs.dirFiles dir))
          s.partialTorrents [] name hmem hmag hval with h | h
      · exact h
      · exact absurd h hnotk

/-- Witness for C8 at a concrete scan: the invalid `b.torrent` is not in the
batch and is registered at retry count 0. -/
theorem c8_scan_classification_witness :
    absoluteFilePath "/d" "b.torrent" ∉ (addTorrentsFromDir fsBad "/d" initialState []).2
      ∧ ("/d" ++ "/" ++ "b.torrent", 0)
          ∈ (addTorrentsFromDir fsBad "/d" initialState []).1.partialTorrents := by
  have h := (c8_scan_classification fsBad "/d" initialState "b.torrent"
    (by decide)).2.2 (by decide) (by decide)
  exact ⟨h.1, h.2 (by decide)⟩

/-- C9: `isNetworkFileSystem` reports Network exactly when the `statfs` query
succeeds and returns one of the CIFS / NFS / SMB magic identifiers; in every
other case — including a failed query — it reports Local (`false`), with no
error surfaced to the caller. -/
theorem c9_network_classification (fs : FS) (path : String) :
    isNetworkFileSystem fs path = true ↔
      ∃ t, fs.statfs path = some t ∧
        (t = CIFS_MAGIC_NUMBER ∨ t = NFS_SUPER_MAGIC ∨ t = SMB_SUPER_MAGIC) := by
  unfold isNetworkFileSystem
  cases h : fs.statfs path with
  | none => simp
  | some t => simp [Bool.or_eq_true, beq_iff_eq, or_assoc]

/-- C10: a file name carrying the `.invalid` suffix appended by the
invalidation rename matches neither `*.torrent` nor `*.magnet`; consequently
any later scan never lists it, never reports it ready and never registers it
as partial, and a reconciliation tick never reports or keeps a path it does
not already track. -/
theorem c10_renamed_file_ignored (base : String) :
    matchesFilters (base ++ ".invalid") = false
      ∧ (∀ (fs : FS) (dir : String) (s : WState),
          (base ++ ".invalid") ∉ entryList (fs.dirFiles dir)
          ∧ absoluteFilePath dir (base ++ ".invalid") ∉ (addTorrentsFromDir fs dir s []).2
          ∧ (absoluteFilePath dir (base ++ ".invalid") ∉ keys s.partialTorrents →
             absoluteFilePath dir (base ++ ".invalid")
               ∉ keys (addTorrentsFromDir fs dir s []).1.partialTorrents))
      ∧ (∀ (fs : FS) (s : WState) (q : String), q ∉ keys s.partialTorrents →
          q ∉ keys (processPartialTorrents fs s).1.partialTorrents
          ∧ ∀ b ∈ (processPartialTorrents fs s).2.1, q ∉ b) := by
  refine ⟨invalid_no_match base, ?_, ?_⟩
  · intro fs dir s
    have hnol : (base ++ ".invalid") ∉ entryList (fs.dirFiles dir) := by
      intro hmem
      have := List.of_mem_filter hmem
      rw [invalid_no_match base] at this
      exact absurd this (by decide)
    refine ⟨hnol, ?_, ?_⟩
    · rw [addTorrentsFromDir_batch]
      intro habs
      rw [addTorrentsLoop_torrents] at habs
      rcases habs with habs | ⟨nm, hnm, heq, -⟩
      · exact absurd habs (List.not_mem_nil _)
      · rw [absoluteFilePath_inj heq] at hnol
        exact hnol hnm
    · intro hnotk
      rw [addTorrentsFromDir_parts]
      obtain ⟨extra, he, hp⟩ := addTorrentsLoop_parts fs dir (entryList (fs.dirFiles dir))
        s.partialTorrents []
      rw [he]
      intro hk
      unfold keys at hk
      rw [List.map_append] at hk
      rcases List.mem_append.mp hk with hk | hk
      · exact hnotk hk
      · rcases List.mem_map.mp hk with ⟨e, hme, hpe⟩
        obtain ⟨-, nm, hnm, heq⟩ := hp e hme
        rw [hpe] at heq
        rw [absoluteFilePath_inj heq] at hnol
        exact hnol hnm
  · intro fs s q hnotk
    constructor
    · rw [processPartialTorrents_parts]
      intro hk
      rcases List.mem_map.mp hk with ⟨e, he, hpe⟩
      rcases List.mem_filterMap.mp he with ⟨a, ha, hka⟩
      have hkey : a.1 = e.1 := by
        unfold specKeep at hka
        split at hka
        · exact absurd hka (by simp)
        · split at hka
          · exact absurd hka (by simp)
          · split at hka
            · exact absurd hka (by simp)
            · rcases Option.some_inj.mp hka with rfl
              rfl
      apply hnotk
      rw [← hpe, ← hkey]
      exact List.mem_map.mpr ⟨a, ha, rfl⟩
    · intro b hb hq
      rw [processPartialTorrents_reports] at hb
      have hb2 : b = s.partialTorrents.filterMap (specReady fs) := by
        by_cases hempty : (s.partialTorrents.filterMap (specReady fs)).isEmpty = true
        · rw [if_pos hempty] at hb
          exact absurd hb (List.not_mem_nil b)
        · rw [if_neg hempty] at hb
          exact List.mem_singleton.mp hb
      subst hb2
      rcases List.mem_filterMap.mp hq with ⟨a, ha, hspec⟩
      have hkey : a.1 = q := by
        unfold specReady at hspec
        split at hspec
        · exact absurd hspec (by simp)
        · split at hspec
          · exact Option.some_inj.mp hspec
          · exact absurd hspec (by simp)
      apply hnotk
      rw [← hkey]
      exact List.mem_map.mpr ⟨a, ha, rfl⟩

/-- Witness for C10: concrete instantiations of the hypothesis-bearing
conjuncts. -/
theorem c10_renamed_file_ignored_witness :
    (absoluteFilePath "/d" ("b.torrent" ++ ".invalid") ∉ keys
        (addTorrentsFromDir fsBad "/d" initialState []).1.partialTorrents)
      ∧ "/x" ∉ keys (processPartialTorrents fsBad initialState).1.partialTorrents :=
  ⟨((c10_renamed_file_ignored "b.torrent").2.1 fsBad "/d" initialState).2.2 (by decide),
   ((c10_renamed_file_ignored "b.torrent").2.2 fsBad initialState "/x" (by decide)).1⟩

end FSW
